import Mathlib

/-!
Verification development for the Outline VPN access-key management client
(`src/OutlineClient.cpp`).  The client issues HTTPS requests against a
remote management API and decodes JSON responses.  We embed:

* the JSON value model, serializer and parser used by the client
  (`boost::json::parse` / `boost::json::serialize`), restricted to integer
  numbers (the client itself never constructs floating-point values; the
  floating-point fragment of JSON is outside the scope of this embedding);
* the URL helpers and endpoint constants (`utils::appendUrl`,
  `utils::replacePlaceholders`, `api::Endpoints`), whose headers are not in
  the repository snapshot and are therefore modelled from the spec;
* the five public key-management operations, with the HTTP round trip
  abstracted as an input `(status, body)` pair and the transport layer
  (`doHttpsGet` / `doHttpsPut` / `doHttpsPost` / `doHttpsDelete`) modelled
  over an explicit record of per-stage outcomes.
-/

/-- JSON values as handled by `boost::json`: null, booleans, (integer)
numbers, strings, arrays, and objects as ordered member lists. -/
inductive Json where
  | null : Json
  | bool (b : Bool) : Json
  | num (n : Int) : Json
  | str (s : List Char) : Json
  | arr (elems : List Json) : Json
  | obj (mems : List (List Char × Json)) : Json

/-- Hex digit characters as emitted by the serializer (lowercase). -/
def hexDig (n : Nat) : Char :=
  if n < 10 then Char.ofNat (48 + n) else Char.ofNat (87 + n)

/-- Escaping of a single character in a serialized JSON string: quote and
backslash get a backslash escape, control characters are emitted as a
four-hex-digit escape, everything else is emitted verbatim. -/
def escChar (c : Char) : List Char :=
  if c = '"' then ['\\', '"']
  else if c = '\\' then ['\\', '\\']
  else if c.toNat < 32 then
    ['\\', 'u', '0', '0', hexDig (c.toNat / 16), hexDig (c.toNat % 16)]
  else [c]

/-- Serialized form of a JSON string (quotes plus escaped content). -/
def serStr (s : List Char) : List Char :=
  '"' :: (s.flatMap escChar ++ ['"'])

/-- The character for a decimal digit. -/
def digitChar (d : Nat) : Char := Char.ofNat (48 + d)

/-- Decimal digit characters of a natural number, most significant first. -/
def natChars (m : Nat) : List Char :=
  if m = 0 then ['0'] else ((Nat.digits 10 m).map digitChar).reverse

/-- Serialized form of a JSON (integer) number. -/
def serNum (n : Int) : List Char :=
  if n < 0 then '-' :: natChars n.natAbs else natChars n.natAbs

mutual

/-- Serialization of a JSON value, mirroring `boost::json::serialize`
(no insignificant whitespace). -/
def serJson : Json → List Char
  | .null => "null".toList
  | .bool b => (if b then "true" else "false").toList
  | .num n => serNum n
  | .str s => serStr s
  | .arr xs => '[' :: (serElems xs ++ [']'])
  | .obj ms => '\x7b' :: (serMems ms ++ ['\x7d'])

/-- Serialization of the comma-separated elements of a JSON array. -/
def serElems : List Json → List Char
  | [] => []
  | [x] => serJson x
  | x :: y :: xs => serJson x ++ ',' :: serElems (y :: xs)

/-- Serialization of the comma-separated members of a JSON object. -/
def serMems : List (List Char × Json) → List Char
  | [] => []
  | [(k, v)] => serStr k ++ ':' :: serJson v
  | (k, v) :: m :: ms => serStr k ++ ':' :: serJson v ++ ',' :: serMems (m :: ms)

end

/-- JSON insignificant whitespace. -/
def isWsCh (c : Char) : Bool :=
  c = ' ' || c = '\t' || c = '\n' || c = '\r'

/-- Skip insignificant whitespace. -/
def skipWs (l : List Char) : List Char := l.dropWhile isWsCh

/-- Decimal digit test. -/
def isDigitCh (c : Char) : Bool := 48 ≤ c.toNat && c.toNat ≤ 57

/-- Numeric value of a decimal digit character. -/
def digitVal (c : Char) : Nat := c.toNat - 48

/-- Consume a maximal run of decimal digits, accumulating their value. -/
def pDigitsAux : List Char → Nat → Nat × List Char
  | [], acc => (acc, [])
  | c :: r, acc =>
    if isDigitCh c then pDigitsAux r (10 * acc + digitVal c) else (acc, c :: r)

/-- Parse a JSON number token (optional minus sign, then digits). -/
def pNum (input : List Char) : Option (Json × List Char) :=
  match input with
  | [] => none
  | c :: r =>
    if c = '-' then
      match r with
      | [] => none
      | c2 :: _ =>
        if isDigitCh c2 then
          let p := pDigitsAux r 0
          some (.num (-(p.1 : Int)), p.2)
        else none
    else
      if isDigitCh c then
        let p := pDigitsAux input 0
        some (.num (p.1 : Int), p.2)
      else none

/-- Numeric value of a hex digit character, if it is one. -/
def hexVal (c : Char) : Option Nat :=
  if 48 ≤ c.toNat ∧ c.toNat ≤ 57 then some (c.toNat - 48)
  else if 97 ≤ c.toNat ∧ c.toNat ≤ 102 then some (c.toNat - 87)
  else if 65 ≤ c.toNat ∧ c.toNat ≤ 70 then some (c.toNat - 55)
  else none

/-- Decoding of a single-character string escape. -/
def escDecode (c : Char) : Option Char :=
  if c = '"' then some '"'
  else if c = '\\' then some '\\'
  else if c = '/' then some '/'
  else if c = 'b' then some '\x08'
  else if c = 'f' then some '\x0c'
  else if c = 'n' then some '\n'
  else if c = 'r' then some '\r'
  else if c = 't' then some '\t'
  else none

/-- Parse the remainder of a JSON string (after the opening quote), up to
and including the closing quote. -/
def pStrRest : List Char → Option (List Char × List Char)
  | [] => none
  | c :: r =>
    if c = '"' then some ([], r)
    else if c = '\\' then
      match r with
      | [] => none
      | e :: r2 =>
        if e = 'u' then
          match r2 with
          | h1 :: h2 :: h3 :: h4 :: r3 =>
            match hexVal h1, hexVal h2, hexVal h3, hexVal h4 with
            | some a, some b, some hc, some hd =>
              (pStrRest r3).map fun p =>
                (Char.ofNat (((a * 16 + b) * 16 + hc) * 16 + hd) :: p.1, p.2)
            | _, _, _, _ => none
          | _ => none
        else
          match escDecode e with
          | some c2 => (pStrRest r2).map fun p => (c2 :: p.1, p.2)
          | none => none
    else (pStrRest r).map fun p => (c :: p.1, p.2)

mutual

/-- Fueled recursive-descent JSON value parser, mirroring
`boost::json::parse` on the integer fragment.  Returns the parsed value and
the unconsumed remainder. -/
def pVal : Nat → List Char → Option (Json × List Char)
  | 0, _ => none
  | fuel + 1, input =>
    match skipWs input with
    | [] => none
    | c :: r =>
      if c = 'n' then
        match r with
        | 'u' :: 'l' :: 'l' :: r2 => some (.null, r2)
        | _ => none
      else if c = 't' then
        match r with
        | 'r' :: 'u' :: 'e' :: r2 => some (.bool true, r2)
        | _ => none
      else if c = 'f' then
        match r with
        | 'a' :: 'l' :: 's' :: 'e' :: r2 => some (.bool false, r2)
        | _ => none
      else if c = '"' then
        (pStrRest r).map fun p => (.str p.1, p.2)
      else if c = '[' then
        let r2 := skipWs r
        if r2.head? = some ']' then some (.arr [], r2.tail)
        else (pElems fuel r2).map fun p => (.arr p.1, p.2)
      else if c = '\x7b' then
        let r2 := skipWs r
        if r2.head? = some '\x7d' then some (.obj [], r2.tail)
        else (pMems fuel r2).map fun p => (.obj p.1, p.2)
      else pNum (c :: r)

/-- Parse the nonempty element list of a JSON array, consuming the closing
bracket. -/
def pElems : Nat → List Char → Option (List Json × List Char)
  | 0, _ => none
  | fuel + 1, input =>
    match pVal fuel input with
    | none => none
    | some (v, r) =>
      let r1 := skipWs r
      if r1.head? = some ',' then
        match pElems fuel r1.tail with
        | some (vs, r3) => some (v :: vs, r3)
        | none => none
      else if r1.head? = some ']' then some ([v], r1.tail)
      else none

/-- Parse the nonempty member list of a JSON object, consuming the closing
brace. -/
def pMems : Nat → List Char → Option (List (List Char × Json) × List Char)
  | 0, _ => none
  | fuel + 1, input =>
    let s1 := skipWs input
    if s1.head? = some '"' then
      match pStrRest s1.tail with
      | none => none
      | some (k, r2) =>
        let r2a := skipWs r2
        if r2a.head? = some ':' then
          match pVal fuel r2a.tail with
          | none => none
          | some (v, r4) =>
            let r4a := skipWs r4
            if r4a.head? = some ',' then
              match pMems fuel r4a.tail with
              | some (ms, r6) => some ((k, v) :: ms, r6)
              | none => none
            else if r4a.head? = some '\x7d' then some ([(k, v)], r4a.tail)
            else none
        else none
    else none

end

/-- Serialize a JSON value to a string (`boost::json::serialize`). -/
def jsonSerialize (v : Json) : String := String.mk (serJson v)

/-- Parse a complete JSON document from a string (`boost::json::parse`):
one value, possibly surrounded by insignificant whitespace. -/
def jsonParse (s : String) : Option Json :=
  match pVal (s.toList.length + 1) s.toList with
  | some (v, rest) => if skipWs rest = [] then some v else none
  | none => none

/-- Diagnostic message carried by the exception `boost::json::parse` throws
on malformed input (the library reports a syntax error through
`e.what()`; the concrete wording is modelled). -/
def jsonParseWhat : String := "syntax error"

/-- Parse as `boost::json::parse`, surfacing the throwing interface used by
the client: malformed input yields the parser's diagnostic message. -/
def jsonParseE (s : String) : Except String Json :=
  match jsonParse s with
  | some v => .ok v
  | none => .error jsonParseWhat

/-- Parsed URL, as stored in the client's `m_apiUrl` field
(`boost::urls::url`). -/
structure Url where
  scheme : String
  authority : String
  path : String
  query : String
deriving DecidableEq

/-- Characters allowed in a URI scheme after the initial letter. -/
def isSchemeCh (c : Char) : Bool :=
  c.isAlphanum || c = '+' || c = '-' || c = '.'

/-- Consume a URI scheme up to the colon separator. -/
def takeScheme : List Char → Option (List Char × List Char)
  | [] => none
  | c :: r =>
    if c = ':' then some ([], r)
    else if isSchemeCh c then
      (takeScheme r).map fun p => (c :: p.1, p.2)
    else none

/-- Modelled from the spec: `boost::urls::parse_uri` (header-only
dependency, not in the repository snapshot).  Per the spec the base API URL
"must be a valid absolute URL or construction fails": an absolute URL is a
letter-initial scheme, a colon, an optional `//`-prefixed authority, then
path and query. -/
def parseUri (s : String) : Option Url :=
  match takeScheme s.toList with
  | none => none
  | some (sch, r) =>
    match sch with
    | [] => none
    | c0 :: _ =>
      if c0.isAlpha then
        if r.take 2 = ['/', '/'] then
          let r2 := r.drop 2
          let auth := r2.takeWhile fun c => !(c = '/' || c = '?')
          let rest2 := r2.dropWhile fun c => !(c = '/' || c = '?')
          let path := rest2.takeWhile fun c => !(c = '?')
          let query := (rest2.dropWhile fun c => !(c = '?')).drop 1
          some ⟨String.mk sch, String.mk auth, String.mk path, String.mk query⟩
        else
          let path := r.takeWhile fun c => !(c = '?')
          let query := (r.dropWhile fun c => !(c = '?')).drop 1
          some ⟨String.mk sch, "", String.mk path, String.mk query⟩
      else none

/-- Diagnostic message of the exception thrown by
`boost::urls::parse_uri(...).value()` on a malformed URL (modelled
wording). -/
def parseUriWhat : String := "Invalid URI"

/-- Join two path components without duplicating the separator. -/
def joinPaths (p s : List Char) : List Char :=
  if p.getLast? = some '/' then
    if s.head? = some '/' then p ++ s.drop 1 else p ++ s
  else
    if s.head? = some '/' then p ++ s else p ++ '/' :: s

/-- Modelled from the spec: `utils::appendUrl` (header not in the
repository snapshot).  Given a base URL and a path segment it produces the
concatenated URL and "must not duplicate path separators" (spec section on
URL assembly). -/
def appendUrl (u : Url) (seg : String) : Url :=
  { u with path := String.mk (joinPaths u.path.toList seg.toList) }

/-- Check whether `pat` is an initial segment of `l`. -/
def headSeg : List Char → List Char → Bool
  | _, [] => true
  | [], _ :: _ => false
  | c :: cs, p :: ps => c = p && headSeg cs ps

/-- Replace every (non-overlapping, left-to-right) occurrence of `pat` in
`t` by `rep`; fueled by the length of `t`. -/
def replaceAllAux : Nat → List Char → List Char → List Char → List Char
  | 0, t, _, _ => t
  | fuel + 1, t, pat, rep =>
    if pat ≠ [] ∧ headSeg t pat then
      rep ++ replaceAllAux fuel (t.drop pat.length) pat rep
    else
      match t with
      | [] => []
      | c :: r => c :: replaceAllAux fuel r pat rep

/-- Modelled from the spec: `utils::replacePlaceholders` (header not in the
repository snapshot).  "Given a template containing named placeholders and
a mapping of placeholder to value, produce the template with all
placeholders substituted." -/
def replacePlaceholders (t : String) (ps : List (String × String)) : String :=
  ps.foldl
    (fun acc kv =>
      String.mk (replaceAllAux (acc.toList.length + 1) acc.toList kv.1.toList kv.2.toList))
    t

/-- Modelled from the spec: endpoint template for listing keys
(`api::Endpoints::GetAccessKeys`, header not in the snapshot; spec wire
table row "List keys: GET /access-keys"). -/
def Endpoints.GetAccessKeys : String := "/access-keys"

/-- Modelled from the spec: endpoint template for fetching one key
("Get key: GET /access-keys/{id}"). -/
def Endpoints.GetAccessKeyById : String := "/access-keys/{id}"

/-- Modelled from the spec: endpoint template for creating a key
("Create key: POST /access-keys"). -/
def Endpoints.CreateAccessKey : String := "/access-keys"

/-- Modelled from the spec: endpoint template for updating a key
("Update key: PUT /access-keys/{id}"). -/
def Endpoints.UpdateAccessKey : String := "/access-keys/{id}"

/-- Modelled from the spec: endpoint template for deleting a key
("Delete key: DELETE /access-keys/{id}"). -/
def Endpoints.DeleteAccessKey : String := "/access-keys/{id}"

/-- Modelled from the spec: the key-identifier placeholder
(`api::UrlParams::KeyId`; spec: "`{id}` = key identifier placeholder"). -/
def UrlParams.KeyId : String := "{id}"

/-- Error codes of the transport layer; `eof` is
`boost::asio::error::eof`, `endOfStream` is
`boost::beast::http::error::end_of_stream`, any other code is `other`. -/
inductive ECode where
  | eof : ECode
  | endOfStream : ECode
  | other (n : Nat) : ECode
deriving DecidableEq

/-- The exception taxonomy of the client: `OutlineParseException`,
`OutlineServerErrorException` (each carrying a message string), and
`boost::system::system_error` for transport faults (carrying the error
code). -/
inductive OutlineExc where
  | parseException (msg : String) : OutlineExc
  | serverErrorException (msg : String) : OutlineExc
  | systemError (ec : ECode) : OutlineExc
deriving DecidableEq

/-- Modelled from the spec: `CreateAccessKeyParams` (header not in the
snapshot): "request payload descriptors with optional fields: name
(string), password (string), method (cipher/auth method identifier
string), data_limit_bytes (unsigned integer)". -/
structure CreateAccessKeyParams where
  name : Option String
  password : Option String
  method : Option String
  data_limit_bytes : Option Nat
deriving DecidableEq

/-- Modelled from the spec: `UpdateAccessKeyParams`, with the same optional
fields as `CreateAccessKeyParams`. -/
structure UpdateAccessKeyParams where
  name : Option String
  password : Option String
  method : Option String
  data_limit_bytes : Option Nat
deriving DecidableEq

/-- Client state: the fields of `OutlineClient` relevant to the embedded
operations (`m_apiUrl` is mutated in place by every operation). -/
structure ClientState where
  m_apiUrl : Url
  m_cert : String
  m_timeout : Int
deriving DecidableEq

/-- The `OutlineClient` constructor: parses the base API URL, throwing
`OutlineParseException` with the parser's message when parsing fails. -/
def OutlineClient.make (apiUrl : String) (cert : String) (timeout : Int) :
    Except OutlineExc ClientState :=
  match parseUri apiUrl with
  | some u => .ok ⟨u, cert, timeout⟩
  | none => .error (.parseException ("Unable to parse API URL: " ++ parseUriWhat))

/-- Insertion into a `boost::json::object`: `operator[]` assigns in place
when the key exists and appends otherwise. -/
def objSet (o : List (List Char × Json)) (k : List Char) (v : Json) :
    List (List Char × Json) :=
  match o with
  | [] => [(k, v)]
  | (k0, v0) :: rest =>
    if k0 = k then (k0, v) :: rest else (k0, v0) :: objSet rest k v

/-- The request-body object built by `createAccessKey`: conditional
insertion of `name`, `password`, `method`, and the nested
`limit: (bytes: ...)` object. -/
def buildCreateKeyObj (params : CreateAccessKeyParams) : List (List Char × Json) :=
  let keyObj : List (List Char × Json) := []
  let keyObj := match params.name with
    | some s => objSet keyObj "name".toList (.str s.toList)
    | none => keyObj
  let keyObj := match params.password with
    | some s => objSet keyObj "password".toList (.str s.toList)
    | none => keyObj
  let keyObj := match params.method with
    | some s => objSet keyObj "method".toList (.str s.toList)
    | none => keyObj
  let keyObj := match params.data_limit_bytes with
    | some n =>
      let dataLimitObj := objSet [] "bytes".toList (.num n)
      objSet keyObj "limit".toList (.obj dataLimitObj)
    | none => keyObj
  keyObj

/-- The request-body object built by `updateAccessKey` (the same
conditional-insertion block, duplicated in the source). -/
def buildUpdateKeyObj (params : UpdateAccessKeyParams) : List (List Char × Json) :=
  let keyObj : List (List Char × Json) := []
  let keyObj := match params.name with
    | some s => objSet keyObj "name".toList (.str s.toList)
    | none => keyObj
  let keyObj := match params.password with
    | some s => objSet keyObj "password".toList (.str s.toList)
    | none => keyObj
  let keyObj := match params.method with
    | some s => objSet keyObj "method".toList (.str s.toList)
    | none => keyObj
  let keyObj := match params.data_limit_bytes with
    | some n =>
      let dataLimitObj := objSet [] "bytes".toList (.num n)
      objSet keyObj "limit".toList (.obj dataLimitObj)
    | none => keyObj
  keyObj

/-- The C++ statement `placeholders[...] = accessKeyId` in
`updateAccessKey` assigns an `int` to a `std::string`: overload resolution
selects `std::string::operator=(char)` via the implicit int-to-char
conversion, so the stored value is the single character whose code is the
key identifier (taken modulo 256, the two's-complement narrowing). -/
def intToCharCpp (n : Int) : Char := Char.ofNat (n % 256).toNat

/-- The placeholder-resolved endpoint computed by `updateAccessKey` for a
given integer key identifier. -/
def updateEndpoint (accessKeyId : Int) : String :=
  replacePlaceholders Endpoints.UpdateAccessKey
    [(UrlParams.KeyId, String.singleton (intToCharCpp accessKeyId))]

/-- `OutlineClient::getAccessKeys`, with the HTTP round trip abstracted as
the `(status, body)` pair `resp` that `doGet` returns.  Returns the thrown
exception or returned string, together with the client state after the
call (the `m_apiUrl` member is mutated before the request is issued). -/
def getAccessKeys (st : ClientState) (resp : Nat × String) :
    Except OutlineExc String × ClientState :=
  let st1 : ClientState :=
    { st with m_apiUrl := appendUrl st.m_apiUrl Endpoints.GetAccessKeys }
  let statusKeys := resp.1
  let bodyKeys := resp.2
  if statusKeys ≠ 200 then
    (.error (.serverErrorException
      ("Unable to get keys (status=" ++ toString statusKeys ++ ")")), st1)
  else
    match jsonParseE bodyKeys with
    | .error e => (.error (.parseException ("JSON parse error for keys: " ++ e)), st1)
    | .ok keysVal => (.ok (jsonSerialize keysVal), st1)

/-- `OutlineClient::getAccessKey`.  The by-reference argument
`accessKeyId` is threaded through to the output (the body contains no
assignment to it). -/
def getAccessKey (st : ClientState) (accessKeyId : String) (resp : Nat × String) :
    Except OutlineExc String × ClientState × String :=
  let placeholders : List (String × String) := [(UrlParams.KeyId, accessKeyId)]
  let endpoint := replacePlaceholders Endpoints.GetAccessKeyById placeholders
  let st1 : ClientState := { st with m_apiUrl := appendUrl st.m_apiUrl endpoint }
  let statusKey := resp.1
  let bodyKey := resp.2
  if statusKey ≠ 200 then
    (.error (.serverErrorException
      ("Unable to get key (status=" ++ toString statusKey ++ ")")), st1, accessKeyId)
  else
    match jsonParseE bodyKey with
    | .error e =>
      (.error (.parseException ("JSON parse error for key: " ++ e)), st1, accessKeyId)
    | .ok keyVal => (.ok (jsonSerialize keyVal), st1, accessKeyId)

/-- `OutlineClient::createAccessKey`: appends the create endpoint, builds
the request-body JSON from the present optional fields, and validates the
201 status. -/
def createAccessKey (st : ClientState) (params : CreateAccessKeyParams)
    (resp : Nat × String) :
    Except OutlineExc String × ClientState × CreateAccessKeyParams :=
  let st1 : ClientState :=
    { st with m_apiUrl := appendUrl st.m_apiUrl Endpoints.CreateAccessKey }
  let keyStr := jsonSerialize (Json.obj (buildCreateKeyObj params))
  let statusKey := resp.1
  let bodyKey := resp.2
  if statusKey ≠ 201 then
    (.error (.serverErrorException
      ("Unable to create key (status=" ++ toString statusKey ++ ")")), st1, params)
  else
    match jsonParseE bodyKey with
    | .error e =>
      (.error (.parseException ("JSON parse error for key: " ++ e)), st1, params)
    | .ok keyVal => (.ok (jsonSerialize keyVal), st1, params)

/-- The request body `createAccessKey` emits (`keyStr` in the source). -/
def createKeyBody (params : CreateAccessKeyParams) : String :=
  jsonSerialize (Json.obj (buildCreateKeyObj params))

/-- `OutlineClient::updateAccessKey`: resolves the `(id)` placeholder from
the integer identifier (via the implicit int-to-char conversion, see
`intToCharCpp`), appends the endpoint, builds the body, validates 201. -/
def updateAccessKey (st : ClientState) (accessKeyId : Int)
    (params : UpdateAccessKeyParams) (resp : Nat × String) :
    Except OutlineExc String × ClientState × UpdateAccessKeyParams :=
  let endpoint := updateEndpoint accessKeyId
  let st1 : ClientState := { st with m_apiUrl := appendUrl st.m_apiUrl endpoint }
  let keyStr := jsonSerialize (Json.obj (buildUpdateKeyObj params))
  let statusKey := resp.1
  let bodyKey := resp.2
  if statusKey ≠ 201 then
    (.error (.serverErrorException
      ("Unable to update key (status=" ++ toString statusKey ++ ")")), st1, params)
  else
    match jsonParseE bodyKey with
    | .error e =>
      (.error (.parseException ("JSON parse error for key: " ++ e)), st1, params)
    | .ok keyVal => (.ok (jsonSerialize keyVal), st1, params)

/-- The request body `updateAccessKey` emits (`keyStr` in the source). -/
def updateKeyBody (params : UpdateAccessKeyParams) : String :=
  jsonSerialize (Json.obj (buildUpdateKeyObj params))

/-- `OutlineClient::deleteAccessKey`: resolves the endpoint, validates the
204 status, and returns nothing; the response body is never parsed. -/
def deleteAccessKey (st : ClientState) (accessKeyId : String) (resp : Nat × String) :
    Except OutlineExc Unit × ClientState × String :=
  let placeholders : List (String × String) := [(UrlParams.KeyId, accessKeyId)]
  let endpoint := replacePlaceholders Endpoints.DeleteAccessKey placeholders
  let st1 : ClientState := { st with m_apiUrl := appendUrl st.m_apiUrl endpoint }
  let statusKey := resp.1
  if statusKey ≠ 204 then
    (.error (.serverErrorException
      ("Unable to delete key (status=" ++ toString statusKey ++ ")")), st1, accessKeyId)
  else
    (.ok (), st1, accessKeyId)

/-- Outcome record of one transport round trip: for each stage the error
code it produced, if any, plus the status and body that the response
object holds after the read. -/
structure TransportEvents where
  resolveEc : Option ECode
  connectEc : Option ECode
  handshakeEc : Option ECode
  writeEc : Option ECode
  readEc : Option ECode
  shutdownEc : Option ECode
  status : Nat
  body : String

/-- `OutlineClient::doHttpsGet`: resolve, connect, handshake, write and
read use the throwing overloads (any error propagates as
`boost::system::system_error`); the final shutdown tolerates exactly
`boost::asio::error::eof`. -/
def doHttpsGet (ev : TransportEvents) : Except OutlineExc (Nat × String) :=
  match ev.resolveEc with
  | some e => .error (.systemError e)
  | none =>
  match ev.connectEc with
  | some e => .error (.systemError e)
  | none =>
  match ev.handshakeEc with
  | some e => .error (.systemError e)
  | none =>
  match ev.writeEc with
  | some e => .error (.systemError e)
  | none =>
  match ev.readEc with
  | some e => .error (.systemError e)
  | none =>
  match ev.shutdownEc with
  | some e =>
    if e ≠ .eof then .error (.systemError e) else .ok (ev.status, ev.body)
  | none => .ok (ev.status, ev.body)

/-- `OutlineClient::doHttpsPut`: identical staging to `doHttpsGet`. -/
def doHttpsPut (ev : TransportEvents) : Except OutlineExc (Nat × String) :=
  match ev.resolveEc with
  | some e => .error (.systemError e)
  | none =>
  match ev.connectEc with
  | some e => .error (.systemError e)
  | none =>
  match ev.handshakeEc with
  | some e => .error (.systemError e)
  | none =>
  match ev.writeEc with
  | some e => .error (.systemError e)
  | none =>
  match ev.readEc with
  | some e => .error (.systemError e)
  | none =>
  match ev.shutdownEc with
  | some e =>
    if e ≠ .eof then .error (.systemError e) else .ok (ev.status, ev.body)
  | none => .ok (ev.status, ev.body)

/-- `OutlineClient::doHttpsDelete`: identical staging to `doHttpsGet`. -/
def doHttpsDelete (ev : TransportEvents) : Except OutlineExc (Nat × String) :=
  match ev.resolveEc with
  | some e => .error (.systemError e)
  | none =>
  match ev.connectEc with
  | some e => .error (.systemError e)
  | none =>
  match ev.handshakeEc with
  | some e => .error (.systemError e)
  | none =>
  match ev.writeEc with
  | some e => .error (.systemError e)
  | none =>
  match ev.readEc with
  | some e => .error (.systemError e)
  | none =>
  match ev.shutdownEc with
  | some e =>
    if e ≠ .eof then .error (.systemError e) else .ok (ev.status, ev.body)
  | none => .ok (ev.status, ev.body)

/-- `OutlineClient::doHttpsPost`: uses the error-code overloads and throws
explicitly; resolve, connect, handshake and write propagate every error,
the read tolerates exactly `http::error::end_of_stream`, and the shutdown
tolerates exactly `boost::asio::error::eof`. -/
def doHttpsPost (ev : TransportEvents) : Except OutlineExc (Nat × String) :=
  match ev.resolveEc with
  | some e => .error (.systemError e)
  | none =>
  match ev.connectEc with
  | some e => .error (.systemError e)
  | none =>
  match ev.handshakeEc with
  | some e => .error (.systemError e)
  | none =>
  match ev.writeEc with
  | some e => .error (.systemError e)
  | none =>
  let afterRead : Except OutlineExc (Nat × String) :=
    match ev.shutdownEc with
    | some e =>
      if e ≠ .eof then .error (.systemError e) else .ok (ev.status, ev.body)
    | none => .ok (ev.status, ev.body)
  match ev.readEc with
  | some e => if e ≠ .endOfStream then .error (.systemError e) else afterRead
  | none => afterRead

/-- The serialized JSON value re-parsed and re-serialized, as the claim
about round-trip stability phrases it: the composite
`serialize (parse s)` as an optional string. -/
def reserialize (s : String) : Option String := (jsonParse s).map jsonSerialize

mutual

/-- Fuel measure of a JSON value: an upper bound on the recursion depth of
`pVal` needed to parse its serialization. -/
def nodes : Json → Nat
  | .null => 1
  | .bool _ => 1
  | .num _ => 1
  | .str _ => 1
  | .arr xs => nodesL xs + 1
  | .obj ms => nodesM ms + 1

/-- Fuel measure of an array element list. -/
def nodesL : List Json → Nat
  | [] => 0
  | [x] => nodes x + 1
  | x :: y :: ys => nodes x + nodesL (y :: ys) + 1

/-- Fuel measure of an object member list. -/
def nodesM : List (List Char × Json) → Nat
  | [] => 0
  | [(_, v)] => nodes v + 1
  | (_, v) :: m :: ms => nodes v + nodesM (m :: ms) + 1

end

/-- The character list does not begin with a decimal digit (so a digit run
ending right before it is maximal). -/
def headNotDigit (l : List Char) : Prop :=
  match l with
  | [] => True
  | c :: _ => isDigitCh c = false

/-- The serialized tail of a nonempty array after its first element. -/
def elemsTail (xs : List Json) : List Char :=
  match xs with
  | [] => []
  | y :: ys => ',' :: serElems (y :: ys)

/-- The serialized tail of a nonempty object after its first member. -/
def memsTail (ms : List (List Char × Json)) : List Char :=
  match ms with
  | [] => []
  | m :: ms2 => ',' :: serMems (m :: ms2)

/-- First error among a list of staged outcomes. -/
def firstErr (l : List (Option ECode)) : Option ECode := l.findSome? fun x => x

/-- Outcome of the final TLS shutdown stage: only `eof` is tolerated. -/
def shutdownOutcome (ev : TransportEvents) : Except OutlineExc (Nat × String) :=
  match ev.shutdownEc with
  | some e => if e = .eof then .ok (ev.status, ev.body) else .error (.systemError e)
  | none => .ok (ev.status, ev.body)

/-- The transport contract as the claim states it for a verb whose read
errors all propagate: any resolution, connection, handshake, write or read
error becomes a transport fault carrying the code; otherwise only an `eof`
at the final shutdown is tolerated. -/
def transportSpecGet (ev : TransportEvents) : Except OutlineExc (Nat × String) :=
  match firstErr [ev.resolveEc, ev.connectEc, ev.handshakeEc, ev.writeEc, ev.readEc] with
  | some e => .error (.systemError e)
  | none => shutdownOutcome ev

/-- The transport contract amended for POST: in addition to the shutdown
`eof` tolerance, an `end_of_stream` error during the read is treated as
success. -/
def transportSpecPost (ev : TransportEvents) : Except OutlineExc (Nat × String) :=
  match firstErr [ev.resolveEc, ev.connectEc, ev.handshakeEc, ev.writeEc] with
  | some e => .error (.systemError e)
  | none =>
    match ev.readEc with
    | some e => if e = .endOfStream then shutdownOutcome ev else .error (.systemError e)
    | none => shutdownOutcome ev

/-- The operation raised `OutlineServerErrorException`. -/
def isServerErr {a : Type} (r : Except OutlineExc a) : Prop :=
  ∃ m, r = .error (.serverErrorException m)

/-- The operation raised `OutlineParseException`. -/
def isParseErr {a : Type} (r : Except OutlineExc a) : Prop :=
  ∃ m, r = .error (.parseException m)

/-- The member list a create/update request body is specified to contain:
exactly the present optional fields, in order, with `data_limit_bytes`
nested as a `limit` object holding a `bytes` field. -/
def presentEntries (name password method : Option String) (dl : Option Nat) :
    List (List Char × Json) :=
  (match name with
   | some s => [("name".toList, Json.str s.toList)]
   | none => []) ++
  (match password with
   | some s => [("password".toList, Json.str s.toList)]
   | none => []) ++
  (match method with
   | some s => [("method".toList, Json.str s.toList)]
   | none => []) ++
  (match dl with
   | some n => [("limit".toList, Json.obj [("bytes".toList, Json.num n)])]
   | none => [])

/-- A concrete base URL for witness instances. -/
def exUrl : Url := ⟨"https", "example.com", "", ""⟩

/-- A concrete client state for witness instances. -/
def exState : ClientState := ⟨exUrl, "", 5⟩

theorem serElems_eq (x : Json) (xs : List Json) :
    serElems (x :: xs) = serJson x ++ elemsTail xs := by
  cases xs <;> simp [serElems, elemsTail]

theorem serMems_eq (k : List Char) (v : Json) (ms : List (List Char × Json)) :
    serMems ((k, v) :: ms) = serStr k ++ ':' :: (serJson v ++ memsTail ms) := by
  cases ms <;> simp [serMems, memsTail]

theorem skipWs_cons (c : Char) (r : List Char) (h : isWsCh c = false) :
    skipWs (c :: r) = c :: r := by
  simp [skipWs, List.dropWhile_cons, h]

theorem digitChar_isDigit (d : Nat) (h : d < 10) : isDigitCh (digitChar d) = true := by
  interval_cases d <;> decide

theorem digitVal_digitChar (d : Nat) (h : d < 10) : digitVal (digitChar d) = d := by
  interval_cases d <;> decide

theorem pDigitsAux_nondigit (l : List Char) (acc : Nat) (h : headNotDigit l) :
    pDigitsAux l acc = (acc, l) := by
  cases l with
  | nil => rfl
  | cons c r =>
    have hc : isDigitCh c = false := h
    simp [pDigitsAux, hc]

theorem pDigitsAux_run (bs : List Nat) (hb : ∀ d ∈ bs, d < 10) (acc : Nat)
    (rest : List Char) (hr : headNotDigit rest) :
    pDigitsAux (bs.map digitChar ++ rest) acc =
      (bs.foldl (fun a d => 10 * a + d) acc, rest) := by
  induction bs generalizing acc with
  | nil => simpa using pDigitsAux_nondigit rest acc hr
  | cons d ds ih =>
    have hd : d < 10 := hb d (List.mem_cons_self d ds)
    have hds : ∀ x ∈ ds, x < 10 := fun x hx => hb x (List.mem_cons_of_mem d hx)
    simp only [List.map_cons, List.cons_append, pDigitsAux,
      digitChar_isDigit d hd, if_true, digitVal_digitChar d hd, List.append_eq]
    rw [ih hds]
    simp

theorem foldl_reverse_digitsVal (ds : List Nat) (acc : Nat) :
    ds.reverse.foldl (fun a d => 10 * a + d) acc =
      acc * 10 ^ ds.length + Nat.ofDigits 10 ds := by
  induction ds generalizing acc with
  | nil => simp
  | cons d ds ih =>
    rw [List.reverse_cons, List.foldl_append, ih]
    simp only [List.foldl_cons, List.foldl_nil, Nat.ofDigits_cons, List.length_cons,
      Nat.pow_succ]
    ring

theorem natChars_run (m : Nat) (rest : List Char) (hr : headNotDigit rest) :
    pDigitsAux (natChars m ++ rest) 0 = (m, rest) := by
  by_cases h : m = 0
  · subst h
    have h0 : natChars 0 = [0].map digitChar := by decide
    rw [h0, pDigitsAux_run [0] (by norm_num) 0 rest hr]
    simp
  · rw [natChars, if_neg h, ← List.map_reverse,
      pDigitsAux_run _
        (fun d hd => Nat.digits_lt_base (by norm_num) (List.mem_reverse.mp hd)) 0 rest hr,
      foldl_reverse_digitsVal]
    simp [Nat.ofDigits_digits]

theorem natChars_head (m : Nat) :
    ∃ d t, natChars m = digitChar d :: t ∧ d < 10 := by
  by_cases h : m = 0
  · subst h
    exact ⟨0, [], by decide, by norm_num⟩
  · have hne : Nat.digits 10 m ≠ [] := Nat.digits_ne_nil_iff_ne_zero.mpr h
    rw [natChars, if_neg h, ← List.map_reverse]
    cases hrev : (Nat.digits 10 m).reverse with
    | nil => exact absurd (List.reverse_eq_nil_iff.mp hrev) hne
    | cons d t =>
      refine ⟨d, t.map digitChar, by simp, ?_⟩
      have hmem : d ∈ Nat.digits 10 m := by
        rw [← List.mem_reverse, hrev]
        exact List.mem_cons_self d t
      exact Nat.digits_lt_base (by norm_num) hmem

theorem digitChar_ne_minus (d : Nat) (h : d < 10) : (digitChar d = '-') = False := by
  interval_cases d <;> decide

theorem pNum_serNum (n : Int) (rest : List Char) (hr : headNotDigit rest) :
    pNum (serNum n ++ rest) = some (.num n, rest) := by
  obtain ⟨d, t, hnc, hd⟩ := natChars_head n.natAbs
  by_cases hn : n < 0
  · rw [serNum, if_pos hn, hnc]
    simp only [List.cons_append, pNum, if_pos rfl]
    rw [digitChar_isDigit d hd]
    simp only [if_true]
    rw [← List.cons_append, ← hnc, natChars_run n.natAbs rest hr]
    have : -(n.natAbs : Int) = n := by omega
    rw [this]
  · rw [serNum, if_neg hn, hnc]
    simp only [List.cons_append, pNum, digitChar_ne_minus d hd, if_false]
    rw [digitChar_isDigit d hd]
    simp only [if_true]
    rw [← List.cons_append, ← hnc, natChars_run n.natAbs rest hr]
    have : (n.natAbs : Int) = n := by omega
    rw [this]

theorem pVal_serNum (fuel : Nat) (n : Int) (rest : List Char) (hr : headNotDigit rest) :
    pVal (fuel + 1) (serNum n ++ rest) = some (.num n, rest) := by
  obtain ⟨d, t, hnc, hd⟩ := natChars_head n.natAbs
  by_cases hn : n < 0
  · have hser : serNum n ++ rest = '-' :: (natChars n.natAbs ++ rest) := by
      rw [serNum, if_pos hn]; simp
    rw [hser, pVal, skipWs_cons '-' _ (by decide)]
    have h1 : ('-' = 'n') = False := by decide
    have h2 : ('-' = 't') = False := by decide
    have h3 : ('-' = 'f') = False := by decide
    have h4 : ('-' = '"') = False := by decide
    have h5 : ('-' = '[') = False := by decide
    have h6 : ('-' = '\x7b') = False := by decide
    simp only [h1, h2, h3, h4, h5, h6, if_false]
    rw [← hser, pNum_serNum n rest hr]
  · have hser : serNum n ++ rest = digitChar d :: (t ++ rest) := by
      rw [serNum, if_neg hn, hnc]; simp
    rw [hser, pVal, skipWs_cons (digitChar d) _ (by interval_cases d <;> decide)]
    have h1 : (digitChar d = 'n') = False := by interval_cases d <;> decide
    have h2 : (digitChar d = 't') = False := by interval_cases d <;> decide
    have h3 : (digitChar d = 'f') = False := by interval_cases d <;> decide
    have h4 : (digitChar d = '"') = False := by interval_cases d <;> decide
    have h5 : (digitChar d = '[') = False := by interval_cases d <;> decide
    have h6 : (digitChar d = '\x7b') = False := by interval_cases d <;> decide
    simp only [h1, h2, h3, h4, h5, h6, if_false]
    rw [← hser, pNum_serNum n rest hr]

theorem hexVal_hexDig (k : Nat) (h : k < 16) : hexVal (hexDig k) = some k := by
  interval_cases k <;> decide

theorem pStrRest_closing (rest : List Char) :
    pStrRest ('"' :: rest) = some ([], rest) := by
  conv_lhs => unfold pStrRest
  simp

theorem pStrRest_quote (r2 : List Char) :
    pStrRest ('\\' :: '"' :: r2) = (pStrRest r2).map fun p => ('"' :: p.1, p.2) := by
  conv_lhs => unfold pStrRest
  simp [escDecode]

theorem pStrRest_backslash (r2 : List Char) :
    pStrRest ('\\' :: '\\' :: r2) = (pStrRest r2).map fun p => ('\\' :: p.1, p.2) := by
  conv_lhs => unfold pStrRest
  simp [escDecode]

theorem pStrRest_u (a b cc dd : Char) (r3 : List Char) :
    pStrRest ('\\' :: 'u' :: a :: b :: cc :: dd :: r3) =
      (match hexVal a, hexVal b, hexVal cc, hexVal dd with
       | some x1, some x2, some x3, some x4 =>
         (pStrRest r3).map fun p =>
           (Char.ofNat (((x1 * 16 + x2) * 16 + x3) * 16 + x4) :: p.1, p.2)
       | _, _, _, _ => none) := by
  conv_lhs => unfold pStrRest
  simp

theorem pStrRest_raw (c : Char) (h1 : ¬c = '"') (h2 : ¬c = '\\') (r : List Char) :
    pStrRest (c :: r) = (pStrRest r).map fun p => (c :: p.1, p.2) := by
  conv_lhs => unfold pStrRest
  simp [h1, h2]

theorem pStrRest_ser (s : List Char) (rest : List Char) :
    pStrRest (s.flatMap escChar ++ '"' :: rest) = some (s, rest) := by
  induction s with
  | nil =>
    rw [List.flatMap_nil, List.nil_append, pStrRest_closing]
  | cons c cs ih =>
    rw [List.flatMap_cons, List.append_assoc]
    by_cases h1 : c = '"'
    · subst h1
      rw [escChar, if_pos rfl, List.cons_append, List.cons_append, List.nil_append,
        pStrRest_quote, ih]
      rfl
    · by_cases h2 : c = '\\'
      · subst h2
        rw [escChar, if_neg (by decide), if_pos rfl, List.cons_append, List.cons_append,
          List.nil_append, pStrRest_backslash, ih]
        rfl
      · by_cases h3 : c.toNat < 32
        · rw [escChar, if_neg h1, if_neg h2, if_pos h3]
          simp only [List.cons_append, List.nil_append]
          rw [pStrRest_u]
          have hhi : c.toNat / 16 < 16 := by omega
          have hlo : c.toNat % 16 < 16 := by omega
          rw [hexVal_hexDig _ hhi, hexVal_hexDig _ hlo,
            (by decide : hexVal '0' = some 0)]
          show (pStrRest (cs.flatMap escChar ++ '"' :: rest)).map
              (fun p => (Char.ofNat (((0 * 16 + 0) * 16 + c.toNat / 16) * 16 +
                c.toNat % 16) :: p.1, p.2)) = _
          rw [ih, (by omega :
            ((0 * 16 + 0) * 16 + c.toNat / 16) * 16 + c.toNat % 16 = c.toNat),
            Char.ofNat_toNat]
          rfl
        · rw [escChar, if_neg h1, if_neg h2, if_neg h3, List.cons_append,
            List.nil_append, pStrRest_raw c h1 h2, ih]
          rfl

theorem serNum_head (n : Int) :
    ∃ c t, serNum n = c :: t ∧ isWsCh c = false ∧ c ≠ ']' ∧ c ≠ '\x7d' := by
  obtain ⟨d, t0, hnc, hd⟩ := natChars_head n.natAbs
  by_cases hn : n < 0
  · exact ⟨'-', natChars n.natAbs, by rw [serNum, if_pos hn], by decide, by decide, by decide⟩
  · refine ⟨digitChar d, t0, by rw [serNum, if_neg hn, hnc], ?_, ?_, ?_⟩ <;>
      interval_cases d <;> decide

theorem serJson_head (v : Json) :
    ∃ c t, serJson v = c :: t ∧ isWsCh c = false ∧ c ≠ ']' ∧ c ≠ '\x7d' := by
  cases v with
  | null => exact ⟨'n', _, rfl, by decide, by decide, by decide⟩
  | bool b =>
    cases b with
    | false => exact ⟨'f', _, rfl, by decide, by decide, by decide⟩
    | true => exact ⟨'t', _, rfl, by decide, by decide, by decide⟩
  | num n =>
    obtain ⟨c, t, hser, hws, hb1, hb2⟩ := serNum_head n
    exact ⟨c, t, by rw [serJson, hser], hws, hb1, hb2⟩
  | str s => exact ⟨'"', _, rfl, by decide, by decide, by decide⟩
  | arr xs => exact ⟨'[', _, rfl, by decide, by decide, by decide⟩
  | obj ms => exact ⟨'\x7b', _, rfl, by decide, by decide, by decide⟩

theorem nodes_pos (v : Json) : 1 ≤ nodes v := by
  cases v <;> simp [nodes]

theorem nodesL_pos (x : Json) (xs : List Json) : 1 ≤ nodesL (x :: xs) := by
  cases xs <;> simp [nodesL]

theorem nodesM_pos (k : List Char) (v : Json) (ms : List (List Char × Json)) :
    1 ≤ nodesM ((k, v) :: ms) := by
  cases ms <;> simp [nodesM]

theorem nodesL_cons_ge (x : Json) (xs : List Json) :
    nodes x + 1 ≤ nodesL (x :: xs) := by
  cases xs <;> simp [nodesL]

theorem nodesM_cons_ge (k : List Char) (v : Json) (ms : List (List Char × Json)) :
    nodes v + 1 ≤ nodesM ((k, v) :: ms) := by
  cases ms <;> simp [nodesM]

theorem headNotDigit_cons (c : Char) (r : List Char) (h : isDigitCh c = false) :
    headNotDigit (c :: r) := h

theorem rtAll (fuel : Nat) :
    (∀ v rest, nodes v ≤ fuel → headNotDigit rest →
      pVal fuel (serJson v ++ rest) = some (v, rest)) ∧
    (∀ x xs rest, nodesL (x :: xs) ≤ fuel → headNotDigit rest →
      pElems fuel (serElems (x :: xs) ++ ']' :: rest) = some (x :: xs, rest)) ∧
    (∀ k v ms rest, nodesM ((k, v) :: ms) ≤ fuel → headNotDigit rest →
      pMems fuel (serMems ((k, v) :: ms) ++ '\x7d' :: rest) = some ((k, v) :: ms, rest)) := by
  induction fuel with
  | zero =>
    refine ⟨fun v rest hf hr => absurd hf (by have := nodes_pos v; omega),
      fun x xs rest hf hr => absurd hf (by have := nodesL_pos x xs; omega),
      fun k v ms rest hf hr => absurd hf (by have := nodesM_pos k v ms; omega)⟩
  | succ f ih =>
    obtain ⟨ihV, ihE, ihM⟩ := ih
    refine ⟨?_, ?_, ?_⟩
    · intro v rest hf hr
      cases v with
      | null =>
        show pVal (f + 1) ('n' :: 'u' :: 'l' :: 'l' :: rest) = _
        rw [pVal, skipWs_cons 'n' _ (by decide)]
        simp
      | bool b =>
        cases b with
        | true =>
          show pVal (f + 1) ('t' :: 'r' :: 'u' :: 'e' :: rest) = _
          rw [pVal, skipWs_cons 't' _ (by decide)]
          simp
        | false =>
          show pVal (f + 1) ('f' :: 'a' :: 'l' :: 's' :: 'e' :: rest) = _
          rw [pVal, skipWs_cons 'f' _ (by decide)]
          simp
      | num n => exact pVal_serNum f n rest hr
      | str s =>
        show pVal (f + 1) ('"' :: ((s.flatMap escChar ++ ['"']) ++ rest)) = _
        rw [pVal, skipWs_cons '"' _ (by decide)]
        simp only [List.append_assoc, List.cons_append, List.nil_append]
        rw [pStrRest_ser s rest]
        simp
      | arr xs =>
        cases xs with
        | nil =>
          show pVal (f + 1) ('[' :: (']' :: rest)) = _
          rw [pVal, skipWs_cons '[' _ (by decide)]
          simp [skipWs_cons, isWsCh]
        | cons x xs2 =>
          obtain ⟨c0, t0, hser, hws, hb1, hb2⟩ := serJson_head x
          have hne : serElems (x :: xs2) ++ ']' :: rest =
              c0 :: (t0 ++ (elemsTail xs2 ++ ']' :: rest)) := by
            rw [serElems_eq, hser]
            simp
          have hfE : nodesL (x :: xs2) ≤ f := by
            have hn : nodes (Json.arr (x :: xs2)) = nodesL (x :: xs2) + 1 := rfl
            omega
          show pVal (f + 1) ('[' :: ((serElems (x :: xs2) ++ [']']) ++ rest)) = _
          rw [pVal, skipWs_cons '[' _ (by decide), List.append_assoc]
          simp only [List.cons_append, List.nil_append]
          rw [hne, skipWs_cons c0 _ hws]
          simp only [List.head?_cons, Option.some.injEq, hb1, if_false]
          rw [← hne, ihE x xs2 rest hfE hr]
          simp
      | obj ms =>
        cases ms with
        | nil =>
          show pVal (f + 1) ('\x7b' :: ('\x7d' :: rest)) = _
          rw [pVal, skipWs_cons '\x7b' _ (by decide)]
          simp [skipWs_cons, isWsCh]
        | cons m ms2 =>
          obtain ⟨k, v⟩ := m
          have hne : serMems ((k, v) :: ms2) ++ '\x7d' :: rest =
              '"' :: ((k.flatMap escChar ++ ['"']) ++
                (':' :: (serJson v ++ memsTail ms2) ++ '\x7d' :: rest)) := by
            rw [serMems_eq, serStr]
            simp
          have hfM : nodesM ((k, v) :: ms2) ≤ f := by
            have hn : nodes (Json.obj ((k, v) :: ms2)) = nodesM ((k, v) :: ms2) + 1 := rfl
            omega
          show pVal (f + 1) ('\x7b' :: ((serMems ((k, v) :: ms2) ++ ['\x7d']) ++ rest)) = _
          rw [pVal, skipWs_cons '\x7b' _ (by decide), List.append_assoc]
          simp only [List.cons_append, List.nil_append]
          rw [hne, skipWs_cons '"' _ (by decide)]
          simp only [List.head?_cons, Option.some.injEq, if_false]
          rw [← hne, ihM k v ms2 rest hfM hr]
          simp
    · intro x xs rest hf hr
      have h1 : headNotDigit (elemsTail xs ++ ']' :: rest) := by
        cases xs with
        | nil => exact headNotDigit_cons ']' rest (by decide)
        | cons y ys => exact headNotDigit_cons ',' _ (by decide)
      have hvx : nodes x ≤ f := by
        have := nodesL_cons_ge x xs
        omega
      rw [serElems_eq, List.append_assoc, pElems,
        ihV x (elemsTail xs ++ ']' :: rest) hvx h1]
      cases xs with
      | nil =>
        show (let r1 := skipWs (']' :: rest);
          if r1.head? = some ',' then
            match pElems f r1.tail with
            | some (vs, r3) => some (x :: vs, r3)
            | none => none
          else if r1.head? = some ']' then some ([x], r1.tail)
          else none) = _
        rw [skipWs_cons ']' _ (by decide)]
        simp
      | cons y ys =>
        have hfys : nodesL (y :: ys) ≤ f := by
          have hn : nodesL (x :: y :: ys) = nodes x + nodesL (y :: ys) + 1 := rfl
          omega
        show (let r1 := skipWs (',' :: (serElems (y :: ys) ++ ']' :: rest));
          if r1.head? = some ',' then
            match pElems f r1.tail with
            | some (vs, r3) => some (x :: vs, r3)
            | none => none
          else if r1.head? = some ']' then some ([x], r1.tail)
          else none) = _
        rw [skipWs_cons ',' _ (by decide)]
        simp only [List.head?_cons, List.tail_cons, if_pos rfl]
        rw [ihE y ys rest hfys hr]
        simp
    · intro k v ms rest hf hr
      have h2 : headNotDigit (memsTail ms ++ '\x7d' :: rest) := by
        cases ms with
        | nil => exact headNotDigit_cons '\x7d' rest (by decide)
        | cons m2 ms2 => exact headNotDigit_cons ',' _ (by decide)
      have hv : nodes v ≤ f := by
        have := nodesM_cons_ge k v ms
        omega
      rw [serMems_eq, serStr]
      show pMems (f + 1) (('"' :: (k.flatMap escChar ++ ['"'])) ++
        (':' :: (serJson v ++ memsTail ms)) ++ '\x7d' :: rest) = _
      rw [pMems]
      simp only [List.cons_append, List.append_assoc, List.nil_append]
      rw [skipWs_cons '"' _ (by decide)]
      simp only [List.head?_cons, if_pos rfl, List.tail_cons]
      rw [pStrRest_ser k (':' :: (serJson v ++ (memsTail ms ++ '\x7d' :: rest)))]
      show (let r2a := skipWs (':' :: (serJson v ++ (memsTail ms ++ '\x7d' :: rest)));
        if r2a.head? = some ':' then
          match pVal f r2a.tail with
          | none => none
          | some (v2, r4) =>
            let r4a := skipWs r4
            if r4a.head? = some ',' then
              match pMems f r4a.tail with
              | some (ms3, r6) => some ((k, v2) :: ms3, r6)
              | none => none
            else if r4a.head? = some '\x7d' then some ([(k, v2)], r4a.tail)
            else none
        else none) = _
      rw [skipWs_cons ':' _ (by decide)]
      simp only [List.head?_cons, List.tail_cons, if_pos rfl]
      rw [ihV v (memsTail ms ++ '\x7d' :: rest) hv h2]
      cases ms with
      | nil =>
        show (let r4a := skipWs ('\x7d' :: rest);
          if r4a.head? = some ',' then
            match pMems f r4a.tail with
            | some (ms3, r6) => some ((k, v) :: ms3, r6)
            | none => none
          else if r4a.head? = some '\x7d' then some ([(k, v)], r4a.tail)
          else none) = _
        rw [skipWs_cons '\x7d' _ (by decide)]
        simp
      | cons m2 ms2 =>
        obtain ⟨k2, v2⟩ := m2
        have hfm : nodesM ((k2, v2) :: ms2) ≤ f := by
          have hn : nodesM ((k, v) :: (k2, v2) :: ms2) =
              nodes v + nodesM ((k2, v2) :: ms2) + 1 := rfl
          omega
        show (let r4a := skipWs (',' :: (serMems ((k2, v2) :: ms2) ++ '\x7d' :: rest));
          if r4a.head? = some ',' then
            match pMems f r4a.tail with
            | some (ms3, r6) => some ((k, v) :: ms3, r6)
            | none => none
          else if r4a.head? = some '\x7d' then some ([(k, v)], r4a.tail)
          else none) = _
        rw [skipWs_cons ',' _ (by decide)]
        simp only [List.head?_cons, List.tail_cons, if_pos rfl]
        rw [ihM k2 v2 ms2 rest hfm hr]
        simp

theorem natChars_ne_nil (m : Nat) : natChars m ≠ [] := by
  obtain ⟨d, t, h, _⟩ := natChars_head m
  rw [h]
  exact List.cons_ne_nil _ _

theorem serNum_length_pos (n : Int) : 1 ≤ (serNum n).length := by
  rw [serNum]
  by_cases hn : n < 0
  · simp [hn]
  · rw [if_neg hn]
    have := natChars_ne_nil n.natAbs
    cases h : natChars n.natAbs with
    | nil => exact absurd h this
    | cons c t => simp [h]

mutual

theorem nodes_le_ser (v : Json) : nodes v ≤ (serJson v).length := by
  cases v with
  | null => simp [nodes, serJson]
  | bool b => cases b <;> simp [nodes, serJson]
  | num n =>
    have := serNum_length_pos n
    simp only [nodes, serJson]
    omega
  | str s => simp [nodes, serJson, serStr]
  | arr xs =>
    cases xs with
    | nil => simp [nodes, nodesL, serJson, serElems]
    | cons x xs2 =>
      have h := nodesL_le_ser x xs2
      simp only [nodes, serJson, List.length_cons, List.length_append]
      simp only [List.length_cons, List.length_nil]
      omega
  | obj ms =>
    cases ms with
    | nil => simp [nodes, nodesM, serJson, serMems]
    | cons m ms2 =>
      obtain ⟨k, v2⟩ := m
      have h := nodesM_le_ser k v2 ms2
      simp only [nodes, serJson, List.length_cons, List.length_append]
      simp only [List.length_cons, List.length_nil]
      omega
termination_by sizeOf v

theorem nodesL_le_ser (x : Json) (xs : List Json) :
    nodesL (x :: xs) ≤ (serElems (x :: xs)).length + 1 := by
  cases xs with
  | nil =>
    have := nodes_le_ser x
    simp only [nodesL, serElems]
    omega
  | cons y ys =>
    have h1 := nodes_le_ser x
    have h2 := nodesL_le_ser y ys
    simp only [nodesL, serElems, List.length_append, List.length_cons]
    omega
termination_by sizeOf x + sizeOf xs

theorem nodesM_le_ser (k : List Char) (v : Json) (ms : List (List Char × Json)) :
    nodesM ((k, v) :: ms) ≤ (serMems ((k, v) :: ms)).length + 1 := by
  cases ms with
  | nil =>
    have := nodes_le_ser v
    simp only [nodesM, serMems, serStr, List.length_append, List.length_cons]
    omega
  | cons m2 ms2 =>
    obtain ⟨k2, v2⟩ := m2
    have h1 := nodes_le_ser v
    have h2 := nodesM_le_ser k2 v2 ms2
    simp only [nodesM, serMems, serStr, List.length_append, List.length_cons]
    omega
termination_by sizeOf v + sizeOf ms

end

theorem jsonParse_serialize (v : Json) : jsonParse (jsonSerialize v) = some v := by
  have hfuel : nodes v ≤ (serJson v).length + 1 :=
    le_trans (nodes_le_ser v) (by omega)
  have h := (rtAll ((serJson v).length + 1)).1 v [] hfuel trivial
  rw [List.append_nil] at h
  have htl : (jsonSerialize v).toList = serJson v := rfl
  rw [jsonParse, htl, h]
  simp [skipWs]

/-- C9: JSON serialization of a parsed value is idempotent: for every
string that parses as JSON, serializing the parse of the serialized form
yields the same text as serializing the parse of the original string. -/
theorem C9_reserialize_idem (s t : String) (h : reserialize s = some t) :
    reserialize t = some t := by
  rw [reserialize] at h ⊢
  cases hp : jsonParse s with
  | none =>
    rw [hp] at h
    simp at h
  | some v =>
    rw [hp] at h
    simp at h
    subst h
    rw [jsonParse_serialize v]
    rfl

/-- Witness for C9 at a concrete input: re-serializing `" [] "` gives
`"[]"`, and re-serializing that output is stable. -/
theorem C9_reserialize_idem_witness :
    reserialize " [] " = some "[]" ∧ reserialize "[]" = some "[]" :=
  ⟨by rfl, C9_reserialize_idem " [] " "[]" (by rfl)⟩

/-- C3 (refuted by the code, a slip): the endpoint computed by
`updateAccessKey` for key identifier 3 is `/access-keys/` followed by the
single control character U+0003 (the implicit int-to-char conversion in
`placeholders[...] = accessKeyId`), not the decimal string "3". -/
theorem C3_update_endpoint_int_char_bug :
    updateEndpoint 3 = "/access-keys/\x03" ∧ updateEndpoint 3 ≠ "/access-keys/3" :=
  ⟨by rfl, by decide⟩

/-- C2: the request bodies of `createAccessKey` and `updateAccessKey`
contain exactly the present optional fields (`name`, `password`, `method`
flat; `data_limit_bytes` nested as a `limit` object with a `bytes` field),
and with no field set the emitted body is the empty JSON object. -/
theorem C2_request_body_fields (p : CreateAccessKeyParams) (q : UpdateAccessKeyParams) :
    buildCreateKeyObj p =
      presentEntries p.name p.password p.method p.data_limit_bytes ∧
    buildUpdateKeyObj q =
      presentEntries q.name q.password q.method q.data_limit_bytes ∧
    createKeyBody ⟨none, none, none, none⟩ = "\x7b\x7d" ∧
    updateKeyBody ⟨none, none, none, none⟩ = "\x7b\x7d" := by
  obtain ⟨n, pw, m, d⟩ := p
  obtain ⟨n2, pw2, m2, d2⟩ := q
  refine ⟨?_, ?_, by rfl, by rfl⟩
  · cases n <;> cases pw <;> cases m <;> cases d <;> rfl
  · cases n2 <;> cases pw2 <;> cases m2 <;> cases d2 <;> rfl

/-- C8: every public operation mutates the stored API URL in place: after
the call (whatever the response), the stored URL is the previous stored
URL with the operation's placeholder-resolved endpoint path appended; it is
not restored to the base URL. -/
theorem C8_api_url_mutated_in_place (st : ClientState) (aid did : String) (i : Int)
    (p : CreateAccessKeyParams) (q : UpdateAccessKeyParams) (resp : Nat × String) :
    (getAccessKeys st resp).2.m_apiUrl =
      appendUrl st.m_apiUrl Endpoints.GetAccessKeys ∧
    (getAccessKey st aid resp).2.1.m_apiUrl =
      appendUrl st.m_apiUrl
        (replacePlaceholders Endpoints.GetAccessKeyById [(UrlParams.KeyId, aid)]) ∧
    (createAccessKey st p resp).2.1.m_apiUrl =
      appendUrl st.m_apiUrl Endpoints.CreateAccessKey ∧
    (updateAccessKey st i q resp).2.1.m_apiUrl =
      appendUrl st.m_apiUrl (updateEndpoint i) ∧
    (deleteAccessKey st did resp).2.1.m_apiUrl =
      appendUrl st.m_apiUrl
        (replacePlaceholders Endpoints.DeleteAccessKey [(UrlParams.KeyId, did)]) := by
  refine ⟨?_, ?_, ?_, ?_, ?_⟩ <;>
    (first
      | (by_cases hs : resp.1 = 200 <;> cases hb : jsonParse resp.2 <;>
          simp [getAccessKeys, getAccessKey, jsonParseE, hs, hb])
      | skip)
  · by_cases hs : resp.1 = 201 <;> cases hb : jsonParse resp.2 <;>
      simp [createAccessKey, jsonParseE, hs, hb]
  · by_cases hs : resp.1 = 201 <;> cases hb : jsonParse resp.2 <;>
      simp [updateAccessKey, jsonParseE, hs, hb]
  · by_cases hs : resp.1 = 204 <;> simp [deleteAccessKey, hs]

/-- C10: no public operation modifies its by-reference arguments: the key
identifier strings and every field of the parameter structs are returned
unchanged whatever the response. -/
theorem C10_arguments_unchanged (st : ClientState) (aid did : String) (i : Int)
    (p : CreateAccessKeyParams) (q : UpdateAccessKeyParams) (resp : Nat × String) :
    (getAccessKey st aid resp).2.2 = aid ∧
    (deleteAccessKey st did resp).2.2 = did ∧
    (createAccessKey st p resp).2.2 = p ∧
    (updateAccessKey st i q resp).2.2 = q := by
  refine ⟨?_, ?_, ?_, ?_⟩
  · by_cases hs : resp.1 = 200 <;> cases hb : jsonParse resp.2 <;>
      simp [getAccessKey, jsonParseE, hs, hb]
  · by_cases hs : resp.1 = 204 <;> simp [deleteAccessKey, hs]
  · by_cases hs : resp.1 = 201 <;> cases hb : jsonParse resp.2 <;>
      simp [createAccessKey, jsonParseE, hs, hb]
  · by_cases hs : resp.1 = 201 <;> cases hb : jsonParse resp.2 <;>
      simp [updateAccessKey, jsonParseE, hs, hb]

/-- C1: each public operation raises `OutlineServerErrorException` exactly
when the status differs from its single expected value (200, 200, 201,
201, 204), and the raised error carries the observed status code in its
message. -/
theorem C1_server_error_policy (st : ClientState) (aid did : String) (i : Int)
    (p : CreateAccessKeyParams) (q : UpdateAccessKeyParams) (status : Nat) (body : String) :
    (isServerErr (getAccessKeys st (status, body)).1 ↔ status ≠ 200) ∧
    (status ≠ 200 → (getAccessKeys st (status, body)).1 =
      .error (.serverErrorException
        ("Unable to get keys (status=" ++ toString status ++ ")"))) ∧
    (isServerErr (getAccessKey st aid (status, body)).1 ↔ status ≠ 200) ∧
    (status ≠ 200 → (getAccessKey st aid (status, body)).1 =
      .error (.serverErrorException
        ("Unable to get key (status=" ++ toString status ++ ")"))) ∧
    (isServerErr (createAccessKey st p (status, body)).1 ↔ status ≠ 201) ∧
    (status ≠ 201 → (createAccessKey st p (status, body)).1 =
      .error (.serverErrorException
        ("Unable to create key (status=" ++ toString status ++ ")"))) ∧
    (isServerErr (updateAccessKey st i q (status, body)).1 ↔ status ≠ 201) ∧
    (status ≠ 201 → (updateAccessKey st i q (status, body)).1 =
      .error (.serverErrorException
        ("Unable to update key (status=" ++ toString status ++ ")"))) ∧
    (isServerErr (deleteAccessKey st did (status, body)).1 ↔ status ≠ 204) ∧
    (status ≠ 204 → (deleteAccessKey st did (status, body)).1 =
      .error (.serverErrorException
        ("Unable to delete key (status=" ++ toString status ++ ")"))) := by
  refine ⟨⟨?_, ?_⟩, ?_, ⟨?_, ?_⟩, ?_, ⟨?_, ?_⟩, ?_, ⟨?_, ?_⟩, ?_, ⟨?_, ?_⟩, ?_⟩
  · rintro ⟨m, hm⟩ hs
    subst hs
    cases hb : jsonParse body <;> simp [getAccessKeys, jsonParseE, hb] at hm
  · intro hs
    exact ⟨"Unable to get keys (status=" ++ toString status ++ ")",
      by simp [getAccessKeys, hs]⟩
  · intro hs
    simp [getAccessKeys, hs]
  · rintro ⟨m, hm⟩ hs
    subst hs
    cases hb : jsonParse body <;> simp [getAccessKey, jsonParseE, hb] at hm
  · intro hs
    exact ⟨"Unable to get key (status=" ++ toString status ++ ")",
      by simp [getAccessKey, hs]⟩
  · intro hs
    simp [getAccessKey, hs]
  · rintro ⟨m, hm⟩ hs
    subst hs
    cases hb : jsonParse body <;> simp [createAccessKey, jsonParseE, hb] at hm
  · intro hs
    exact ⟨"Unable to create key (status=" ++ toString status ++ ")",
      by simp [createAccessKey, hs]⟩
  · intro hs
    simp [createAccessKey, hs]
  · rintro ⟨m, hm⟩ hs
    subst hs
    cases hb : jsonParse body <;> simp [updateAccessKey, jsonParseE, hb] at hm
  · intro hs
    exact ⟨"Unable to update key (status=" ++ toString status ++ ")",
      by simp [updateAccessKey, hs]⟩
  · intro hs
    simp [updateAccessKey, hs]
  · rintro ⟨m, hm⟩ hs
    subst hs
    simp [deleteAccessKey] at hm
  · intro hs
    exact ⟨"Unable to delete key (status=" ++ toString status ++ ")",
      by simp [deleteAccessKey, hs]⟩
  · intro hs
    simp [deleteAccessKey, hs]

/-- Witness for C1 at concrete inputs: a 500 response to `getAccessKeys`
raises the server error carrying 500, and a 200 response does not raise a
server error. -/
theorem C1_server_error_policy_witness :
    (getAccessKeys exState (500, "\x7b\x7d")).1 =
      .error (.serverErrorException "Unable to get keys (status=500)") ∧
    ¬ isServerErr (getAccessKeys exState (200, "\x7b\x7d")).1 := by
  constructor
  · have h := (C1_server_error_policy exState "1" "5" 3 ⟨none, none, none, none⟩
      ⟨none, none, none, none⟩ 500 "\x7b\x7d").2.1 (by decide)
    exact h.trans (by rfl)
  · intro hserr
    have h := ((C1_server_error_policy exState "1" "5" 3 ⟨none, none, none, none⟩
      ⟨none, none, none, none⟩ 200 "\x7b\x7d").1.mp hserr)
    exact h rfl

/-- C6: `deleteAccessKey` returns normally exactly on a 204 response, and
never parses the response body, so it can never raise
`OutlineParseException` for any response. -/
theorem C6_delete_no_parse (st : ClientState) (did : String) (status : Nat) (body : String) :
    ((deleteAccessKey st did (status, body)).1 = .ok () ↔ status = 204) ∧
    (∀ m, (deleteAccessKey st did (status, body)).1 ≠ .error (.parseException m)) := by
  constructor
  · constructor
    · intro h
      by_cases hs : status = 204
      · exact hs
      · simp [deleteAccessKey, hs] at h
    · intro hs
      simp [deleteAccessKey, hs]
  · intro m hm
    by_cases hs : status = 204 <;> simp [deleteAccessKey, hs] at hm

/-- Witness for C6 at concrete inputs: a 204 response returns normally and
a 403 response is not a parse error. -/
theorem C6_delete_no_parse_witness :
    (deleteAccessKey exState "5" (204, "")).1 = .ok () ∧
    (deleteAccessKey exState "5" (403, "")).1 ≠ .error (.parseException "x") :=
  ⟨(C6_delete_no_parse exState "5" 204 "").1.mpr rfl,
    (C6_delete_no_parse exState "5" 403 "").2 "x"⟩

/-- C5: on a 200 response, `getAccessKeys` and `getAccessKey` return the
canonical re-serialization of the response body parsed as JSON. -/
theorem C5_success_returns_reserialization (st : ClientState) (aid : String)
    (body : String) (v : Json) (h : jsonParse body = some v) :
    (getAccessKeys st (200, body)).1 = .ok (jsonSerialize v) ∧
    (getAccessKey st aid (200, body)).1 = .ok (jsonSerialize v) := by
  constructor <;> simp [getAccessKeys, getAccessKey, jsonParseE, h]

/-- Witness for C5 at the spec's concrete example: a 200 response with
body the JSON object holding an empty `accessKeys` array returns exactly
that text. -/
theorem C5_success_returns_reserialization_witness :
    (getAccessKeys exState (200, "\x7b\"accessKeys\":[]\x7d")).1 =
      .ok "\x7b\"accessKeys\":[]\x7d" ∧
    (getAccessKey exState "1" (200, "\x7b\"accessKeys\":[]\x7d")).1 =
      .ok "\x7b\"accessKeys\":[]\x7d" := by
  have h := C5_success_returns_reserialization exState "1" "\x7b\"accessKeys\":[]\x7d"
    (Json.obj [("accessKeys".toList, Json.arr [])]) (by rfl)
  exact ⟨h.1.trans (by rfl), h.2.trans (by rfl)⟩

/-- C4: `OutlineParseException` arises in exactly two situations: at
construction when the base API URL fails to parse (construction succeeds
on every URL the parser accepts), and in a key operation when, at the
expected status, the response body fails to parse as JSON; in both
situations the message embeds the underlying parser's diagnostic.
`deleteAccessKey` never raises it. -/
theorem C4_parse_error_policy (url cert : String) (t : Int) (st : ClientState)
    (aid did : String) (i : Int) (p : CreateAccessKeyParams)
    (q : UpdateAccessKeyParams) (status : Nat) (body : String) :
    ((∃ m, OutlineClient.make url cert t = .error (.parseException m)) ↔
      parseUri url = none) ∧
    (parseUri url = none → OutlineClient.make url cert t =
      .error (.parseException ("Unable to parse API URL: " ++ parseUriWhat))) ∧
    (∀ u, parseUri url = some u →
      OutlineClient.make url cert t = .ok ⟨u, cert, t⟩) ∧
    (status = 200 →
      (isParseErr (getAccessKeys st (status, body)).1 ↔ jsonParse body = none)) ∧
    (status ≠ 200 → ¬ isParseErr (getAccessKeys st (status, body)).1) ∧
    (status = 200 → jsonParse body = none → (getAccessKeys st (status, body)).1 =
      .error (.parseException ("JSON parse error for keys: " ++ jsonParseWhat))) ∧
    (status = 200 →
      (isParseErr (getAccessKey st aid (status, body)).1 ↔ jsonParse body = none)) ∧
    (status ≠ 200 → ¬ isParseErr (getAccessKey st aid (status, body)).1) ∧
    (status = 200 → jsonParse body = none → (getAccessKey st aid (status, body)).1 =
      .error (.parseException ("JSON parse error for key: " ++ jsonParseWhat))) ∧
    (status = 201 →
      (isParseErr (createAccessKey st p (status, body)).1 ↔ jsonParse body = none)) ∧
    (status ≠ 201 → ¬ isParseErr (createAccessKey st p (status, body)).1) ∧
    (status = 201 → jsonParse body = none → (createAccessKey st p (status, body)).1 =
      .error (.parseException ("JSON parse error for key: " ++ jsonParseWhat))) ∧
    (status = 201 →
      (isParseErr (updateAccessKey st i q (status, body)).1 ↔ jsonParse body = none)) ∧
    (status ≠ 201 → ¬ isParseErr (updateAccessKey st i q (status, body)).1) ∧
    (status = 201 → jsonParse body = none → (updateAccessKey st i q (status, body)).1 =
      .error (.parseException ("JSON parse error for key: " ++ jsonParseWhat))) ∧
    (∀ m, (deleteAccessKey st did (status, body)).1 ≠ .error (.parseException m)) := by
  refine ⟨⟨?_, ?_⟩, ?_, ?_, ?_, ?_, ?_, ?_, ?_, ?_, ?_, ?_, ?_, ?_, ?_, ?_, ?_⟩
  · rintro ⟨m, hm⟩
    cases hu : parseUri url with
    | none => rfl
    | some u => simp [OutlineClient.make, hu] at hm
  · intro hu
    exact ⟨"Unable to parse API URL: " ++ parseUriWhat,
      by simp [OutlineClient.make, hu]⟩
  · intro hu
    simp [OutlineClient.make, hu]
  · intro u hu
    simp [OutlineClient.make, hu]
  · intro hs
    subst hs
    constructor
    · rintro ⟨m, hm⟩
      cases hb : jsonParse body with
      | none => rfl
      | some v => simp [getAccessKeys, jsonParseE, hb] at hm
    · intro hb
      exact ⟨"JSON parse error for keys: " ++ jsonParseWhat,
        by simp [getAccessKeys, jsonParseE, hb]⟩
  · rintro hs ⟨m, hm⟩
    simp [getAccessKeys, hs] at hm
  · intro hs hb
    subst hs
    simp [getAccessKeys, jsonParseE, hb]
  · intro hs
    subst hs
    constructor
    · rintro ⟨m, hm⟩
      cases hb : jsonParse body with
      | none => rfl
      | some v => simp [getAccessKey, jsonParseE, hb] at hm
    · intro hb
      exact ⟨"JSON parse error for key: " ++ jsonParseWhat,
        by simp [getAccessKey, jsonParseE, hb]⟩
  · rintro hs ⟨m, hm⟩
    simp [getAccessKey, hs] at hm
  · intro hs hb
    subst hs
    simp [getAccessKey, jsonParseE, hb]
  · intro hs
    subst hs
    constructor
    · rintro ⟨m, hm⟩
      cases hb : jsonParse body with
      | none => rfl
      | some v => simp [createAccessKey, jsonParseE, hb] at hm
    · intro hb
      exact ⟨"JSON parse error for key: " ++ jsonParseWhat,
        by simp [createAccessKey, jsonParseE, hb]⟩
  · rintro hs ⟨m, hm⟩
    simp [createAccessKey, hs] at hm
  · intro hs hb
    subst hs
    simp [createAccessKey, jsonParseE, hb]
  · intro hs
    subst hs
    constructor
    · rintro ⟨m, hm⟩
      cases hb : jsonParse body with
      | none => rfl
      | some v => simp [updateAccessKey, jsonParseE, hb] at hm
    · intro hb
      exact ⟨"JSON parse error for key: " ++ jsonParseWhat,
        by simp [updateAccessKey, jsonParseE, hb]⟩
  · rintro hs ⟨m, hm⟩
    simp [updateAccessKey, hs] at hm
  · intro hs hb
    subst hs
    simp [updateAccessKey, jsonParseE, hb]
  · intro m hm
    by_cases hs : status = 204 <;> simp [deleteAccessKey, hs] at hm

/-- Witness for C4 at concrete inputs: a well-formed absolute URL
constructs successfully, a malformed string fails with the parse
diagnostic, and a 200 response with a non-JSON body is a parse error. -/
theorem C4_parse_error_policy_witness :
    OutlineClient.make "https://example.com" "" 5 =
      .ok ⟨⟨"https", "example.com", "", ""⟩, "", 5⟩ ∧
    OutlineClient.make "not a url" "" 5 =
      .error (.parseException ("Unable to parse API URL: " ++ parseUriWhat)) ∧
    (getAccessKeys exState (200, "not json")).1 =
      .error (.parseException ("JSON parse error for keys: " ++ jsonParseWhat)) := by
  have h := C4_parse_error_policy "https://example.com" "" 5 exState "1" "5" 3
    ⟨none, none, none, none⟩ ⟨none, none, none, none⟩ 200 "not json"
  have h2 := C4_parse_error_policy "not a url" "" 5 exState "1" "5" 3
    ⟨none, none, none, none⟩ ⟨none, none, none, none⟩ 200 "not json"
  exact ⟨h.2.2.1 ⟨"https", "example.com", "", ""⟩ (by rfl),
    h2.2.1 (by rfl),
    h.2.2.2.2.2.1 rfl (by rfl)⟩

/-- Counterexample to C7 as stated: in `doHttpsPost` an `end_of_stream`
error during the read is treated as success (the response is returned), so
it is not the case that every read error propagates and that the only
tolerated transport error is the end of stream at the final shutdown. -/
theorem C7_counterexample_post_read_end_of_stream :
    doHttpsPost ⟨none, none, none, none, some .endOfStream, none, 201, ""⟩ =
      .ok (201, "") ∧
    (⟨none, none, none, none, some .endOfStream, none, 201, ""⟩ :
      TransportEvents).readEc = some .endOfStream ∧
    ∀ e, doHttpsPost ⟨none, none, none, none, some .endOfStream, none, 201, ""⟩ ≠
      .error (.systemError e) := by
  refine ⟨rfl, rfl, ?_⟩
  intro e h
  rw [show doHttpsPost ⟨none, none, none, none, some .endOfStream, none, 201, ""⟩ =
    .ok (201, "") from rfl] at h
  exact Except.noConfusion h

/-- C7 amended: in every per-verb transport operation, any resolution,
connection, handshake or write error propagates as a transport fault
carrying the code; read errors propagate in GET, PUT and DELETE, while
POST additionally treats `end_of_stream` during the read as success; the
only error tolerated at the final shutdown is `eof`. -/
theorem C7_transport_fault_policy (ev : TransportEvents) :
    doHttpsGet ev = transportSpecGet ev ∧
    doHttpsPut ev = transportSpecGet ev ∧
    doHttpsDelete ev = transportSpecGet ev ∧
    doHttpsPost ev = transportSpecPost ev := by
  obtain ⟨r, c, h, w, rd, sd, status, body⟩ := ev
  cases r <;> cases c <;> cases h <;> cases w <;> cases rd <;> cases sd <;>
    simp [doHttpsGet, doHttpsPut, doHttpsDelete, doHttpsPost, transportSpecGet,
      transportSpecPost, shutdownOutcome, firstErr, ite_not]
